import Mathlib

/-!
Verification of the SOQL builder webview engine of the sfdevtools
extension (src/panels/SoqlBuilderPanel.ts).

The webview script manipulates untyped JSON-like record values; we embed
those values as the inductive type JVal below.  Records returned by the
data service (ResultRecord) are JSON objects and are embedded as
association lists of key/value pairs in key order; JSON objects have
unique keys, so property lookup returns the sole binding of a key.
-/

/-- A JavaScript/JSON value as manipulated by the webview script:
null, string, number (integral values suffice for the record data the
claims concern), boolean, array, object. -/
inductive JVal where
  | jnull : JVal
  | jstr : String → JVal
  | jnum : Int → JVal
  | jbool : Bool → JVal
  | jarr : List JVal → JVal
  | jobj : List (String × JVal) → JVal

/-- A ResultRecord: a JSON object, embedded as an association list. -/
abbrev RecordObj := List (String × JVal)

/-- JavaScript property lookup obj[k] on an object's field list
(objects have unique keys, so first match is the sole binding);
a missing property is undefined, embedded as none. -/
def objLookup (fs : List (String × JVal)) (k : String) : Option JVal :=
  match fs with
  | [] => none
  | (k', v) :: rest => if k' == k then some v else objLookup rest k

/-- JavaScript truthiness of a value. -/
def truthy : JVal → Bool
  | .jnull => false
  | .jstr s => s != ""
  | .jnum n => n != 0
  | .jbool b => b
  | .jarr _ => true
  | .jobj _ => true

/-- Truthiness of a possibly-undefined value (undefined is falsy). -/
def truthyOpt : Option JVal → Bool
  | none => false
  | some v => truthy v

/-- The test r[k] !== null && typeof r[k] === 'object' from
extractColumns: true exactly for arrays and (non-null) objects. -/
def isNonNullObject : JVal → Bool
  | .jarr _ => true
  | .jobj _ => true
  | _ => false

/-- A value treated as a child-relationship sub-result by extractColumns:
an object whose records property is truthy (the sub-result shape
produced by the data service is totalSize plus a records array). -/
def isSubqueryObj : JVal → Bool
  | .jobj fs => truthyOpt (objLookup fs "records")
  | _ => false

/-- JavaScript s.startsWith(pre), on the character sequences. -/
def jsStartsWith (s pre : String) : Bool :=
  pre.data.isPrefixOf s.data

/-- JavaScript s.endsWith(suf), on the character sequences. -/
def jsEndsWith (s suf : String) : Bool :=
  suf.data.isSuffixOf s.data

/-- JavaScript s.includes(sub): sub occurs as a contiguous substring. -/
def jsIncludes (s sub : String) : Bool :=
  (List.range (s.data.length + 1)).any (fun i => sub.data.isPrefixOf (s.data.drop i))

/-- Insertion into a JavaScript Set of strings: a Set keeps insertion
order and ignores a re-inserted element. -/
def osInsert (xs : List String) (x : String) : List String :=
  if xs.contains x then xs else xs ++ [x]

/-- The accumulator of extractColumns: the ordered set of candidate
columns and the set of keys recorded as subquery keys. -/
structure ColState where
  columns : List String
  subqueryKeys : List String
deriving DecidableEq, Repr

/-- One key/value pair of one record, as processed by the inner loop of
extractColumns (SoqlBuilderPanel.ts lines 743-753): the attributes key
is skipped; an array or an object with a truthy records property adds
the synthetic column "k (Subquery)" and records k as a subquery key;
any other non-null object adds one flattened column "k.subKey" per
sub-key (attributes sub-keys skipped, as flattenCols does); anything
else (null included, since null fails the r[k] !== null test) adds k
itself. -/
def flattenCols (k : String) (fs : List (String × JVal)) (cs : List String) : List String :=
  fs.foldl (fun cs p => if p.1 == "attributes" then cs else osInsert cs (k ++ "." ++ p.1)) cs

/-- One candidate-column step of extractColumns; see flattenCols. -/
def processPair (st : ColState) (k : String) (v : JVal) : ColState :=
  if k == "attributes" then st
  else
    match v with
    | .jarr _ =>
        { columns := osInsert st.columns (k ++ " (Subquery)"),
          subqueryKeys := osInsert st.subqueryKeys k }
    | .jobj fs =>
        if truthyOpt (objLookup fs "records") then
          { columns := osInsert st.columns (k ++ " (Subquery)"),
            subqueryKeys := osInsert st.subqueryKeys k }
        else
          { st with columns := flattenCols k fs st.columns }
    | _ => { st with columns := osInsert st.columns k }

/-- The candidate-column accumulation pass of extractColumns over all
records. -/
def extractState (records : List RecordObj) : ColState :=
  records.foldl (fun st r => r.foldl (fun st kv => processPair st kv.1 kv.2) st)
    { columns := [], subqueryKeys := [] }

/-- extractColumns (SoqlBuilderPanel.ts lines 739-759): accumulate the
candidate columns, then drop every column that is a recorded subquery
key and every column c such that some other candidate starts with
c followed by a dot. -/
def extractColumns (records : List RecordObj) : List String :=
  let st := extractState records
  st.columns.filter (fun c =>
    !st.subqueryKeys.contains c &&
    !st.columns.any (fun other => jsStartsWith other (c ++ ".") && other != c))

/-- JavaScript Array.prototype.join(sep): the empty array joins to the
empty string, otherwise the elements interleaved with the separator. -/
def joinWith (sep : String) : List String → String
  | [] => ""
  | [x] => x
  | x :: xs => x ++ sep ++ joinWith sep xs

/-- JavaScript String(v) coercion of a value: null prints as "null",
strings print verbatim, numbers and booleans print canonically, a
plain object prints as "[object Object]", an array prints its elements
joined by commas (a null element prints as the empty string). -/
def jsToString : JVal → String
  | .jnull => "null"
  | .jstr s => s
  | .jnum n => toString n
  | .jbool b => cond b "true" "false"
  | .jobj _ => "[object Object]"
  | .jarr xs => joinWith "," (jsArrayElems xs)
where
  /-- Element conversions of Array.prototype.toString: null prints as
  the empty string inside an array. -/
  jsArrayElems : List JVal → List String
  | [] => []
  | .jnull :: rest => "" :: jsArrayElems rest
  | x :: rest => jsToString x :: jsArrayElems rest

/-- JSON string escaping of the two characters JSON.stringify always
escapes in the record data at hand (quote and backslash). -/
def escapeJson (s : String) : String :=
  String.mk (s.data.flatMap (fun c =>
    if c = '"' then ['\\', '"'] else if c = '\\' then ['\\', '\\'] else [c]))

mutual

/-- JSON.stringify of a value, as used for the on-screen rendering of a
nested non-subquery object. -/
def jsonStringify : JVal → String
  | .jnull => "null"
  | .jstr s => "\"" ++ escapeJson s ++ "\""
  | .jnum n => toString n
  | .jbool b => cond b "true" "false"
  | .jarr xs => "[" ++ joinWith "," (jsonStringifyList xs) ++ "]"
  | .jobj fs => "\x7b" ++ joinWith "," (jsonStringifyFields fs) ++ "\x7d"

/-- JSON.stringify of the elements of an array. -/
def jsonStringifyList : List JVal → List String
  | [] => []
  | x :: rest => jsonStringify x :: jsonStringifyList rest

/-- JSON.stringify of the members of an object. -/
def jsonStringifyFields : List (String × JVal) → List String
  | [] => []
  | (k, v) :: rest =>
      ("\"" ++ escapeJson k ++ "\":" ++ jsonStringify v) :: jsonStringifyFields rest

end

/-- Splitting a character list at every occurrence of a separator
character; the JavaScript "s".split(sep) semantics for a one-character
separator (an empty input yields one empty piece). -/
def splitOnCharAux (c : Char) : List Char → List Char → List (List Char)
  | [], acc => [acc.reverse]
  | x :: rest, acc =>
      if x = c then acc.reverse :: splitOnCharAux c rest []
      else splitOnCharAux c rest (x :: acc)

/-- JavaScript path.split('.') on a string. -/
def jsSplitDot (s : String) : List String :=
  (splitOnCharAux '.' s.data []).map String.mk

/-- One step of the reduce inside getValueByPath:
acc && acc[part].  An undefined accumulator stays undefined; a falsy
defined accumulator is returned unchanged (that is what && does); a
truthy object is indexed (a missing property gives undefined); a
truthy non-object has no such property, giving undefined. -/
def jsGetStep (acc : Option JVal) (part : String) : Option JVal :=
  match acc with
  | none => none
  | some v =>
      if truthy v then
        match v with
        | .jobj fs => objLookup fs part
        | _ => none
      else some v

/-- getValueByPath (SoqlBuilderPanel.ts lines 761-764): a path
containing " (Subquery)" yields null; otherwise the dot-separated path
is traversed by reduce starting from the record object. -/
def getValueByPath (r : RecordObj) (path : String) : Option JVal :=
  if jsIncludes path " (Subquery)" then some .jnull
  else (jsSplitDot path).foldl jsGetStep (some (.jobj r))

/-- Doubling of embedded double quotes, the .replace(/"/g, a doubled
quote) of exportData. -/
def doubleQuotes (s : String) : String :=
  String.mk (s.data.flatMap (fun c => if c = '"' then ['"', '"'] else [c]))

/-- One exported cell (SoqlBuilderPanel.ts line 791): the cell value
String(getValueByPath(r, c) || '') — the empty string whenever the
value is falsy (0, false, empty string, null) or undefined — with
embedded quotes doubled, wrapped in double quotes. -/
def exportCell (v : Option JVal) : String :=
  let s := match v with
           | none => ""
           | some v => if truthy v then jsToString v else ""
  "\"" ++ doubleQuotes s ++ "\""

/-- The exported column list: extractColumns minus every
" (Subquery)" summary column (SoqlBuilderPanel.ts line 788). -/
def exportColumns (records : List RecordObj) : List String :=
  (extractColumns records).filter (fun c => !jsEndsWith c " (Subquery)")

/-- exportData content building (SoqlBuilderPanel.ts lines 785-792):
header row of column names joined by the separator, then one line per
record of quoted cells joined by the separator, each line terminated
by a newline. -/
def exportData (records : List RecordObj) (sep : String) : String :=
  let cols := exportColumns records
  records.foldl
    (fun content r =>
      content ++ joinWith sep (cols.map (fun c => exportCell (getValueByPath r c))) ++ "\n")
    (joinWith sep cols ++ "\n")

/-- The on-screen text of a non-subquery cell (SoqlBuilderPanel.ts
line 711): empty for null/undefined, JSON.stringify for an object,
String coercion otherwise — so a stored 0 or false renders as the
text "0" or "false". -/
def renderCellText (val : Option JVal) : String :=
  match val with
  | none => ""
  | some .jnull => ""
  | some v => if isNonNullObject v then jsonStringify v else jsToString v

/-- Appending a value to the bucket of a key in an ordered association
map, creating the bucket at the end on first use; this is the
subqueries object of updateQuery (JavaScript object keys enumerate in
insertion order). -/
def assocAppend (m : List (String × List String)) (k v : String) : List (String × List String) :=
  match m with
  | [] => [(k, [v])]
  | (k', vs) :: rest =>
      if k' == k then (k', vs ++ [v]) :: rest else (k', vs) :: assocAppend rest k v

/-- updateQuery (SoqlBuilderPanel.ts lines 596-619): partition the
selected field paths (in insertion order) into subquery groups — paths
whose first dot segment is a known root child-relationship name, the
remaining segments rejoined (defaulting to "Id" when empty) — and
direct fields used verbatim; join direct fields with ", " (defaulting
to "Id" when that join is empty); append one ", (SELECT ... FROM rel)"
clause per group; wrap as SELECT ... FROM object LIMIT 2000. -/
def updateQuery (currentObject : String) (childRelNames : List String)
    (selectedFields : List String) : String :=
  let parted := selectedFields.foldl
    (fun (acc : List String × List (String × List String)) fullPath =>
      let parts := jsSplitDot fullPath
      if childRelNames.contains (parts.headD "") then
        let suffix := joinWith "." (parts.drop 1)
        (acc.1, assocAppend acc.2 (parts.headD "") (if suffix == "" then "Id" else suffix))
      else (acc.1 ++ [fullPath], acc.2))
    ([], [])
  let joined := joinWith ", " parted.1
  let fieldsStr := if joined == "" then "Id" else joined
  let fieldsStr := parted.2.foldl
    (fun fs p => fs ++ ", (SELECT " ++ joinWith ", " p.2 ++ " FROM " ++ p.1 ++ ")")
    fieldsStr
  "SELECT " ++ fieldsStr ++ " FROM " ++ currentObject ++ " LIMIT 2000"

/-- The page slice of renderResults (SoqlBuilderPanel.ts lines
646-649): start = (page-1)*pageSize, end = min(start+pageSize, total),
slice records[start:end]. -/
def paginate {α : Type} (records : List α) (page pageSize : Nat) : List α :=
  let total := records.length
  let start := (page - 1) * pageSize
  let stop := min (start + pageSize) total
  (records.drop start).take (stop - start)

/-- The pagination state of the results tab. -/
structure PageState where
  allResults : List RecordObj
  currentPage : Nat
  pageSize : Nat

/-- Math.ceil(allResults.length / pageSize), the total page count. -/
def totalPages (st : PageState) : Nat :=
  (st.allResults.length + st.pageSize - 1) / st.pageSize

/-- jumpToPage (SoqlBuilderPanel.ts lines 768-771): the requested page
is applied only when it lies in [1, totalPages]; an out-of-range
request leaves the state unchanged. -/
def jumpToPage (st : PageState) (val : Nat) : PageState :=
  if 1 ≤ val ∧ val ≤ totalPages st then { st with currentPage := val } else st

/-- The field checkbox onchange handler (SoqlBuilderPanel.ts lines
532-536) together with the rendered checkbox state (checked iff the
path is selected): toggling flips membership — a selected path is
deleted from the Set, an unselected one is added (at the end, in Set
insertion order). -/
def toggleField (selected : List String) (p : String) : List String :=
  if selected.contains p then selected.filter (fun x => x != p) else selected ++ [p]

/-- A field of a described object as ferried to the webview:
name, label, declared type, and for reference fields a relationship
name and target objects. -/
structure FieldDef where
  name : String
  label : String
  ftype : String
  relationshipName : Option String
  referenceTo : List String
deriving DecidableEq, Repr

/-- A child relationship of a described object. -/
structure ChildRelDef where
  relationshipName : String
  childSObject : String
deriving DecidableEq, Repr

/-- The field and child-relationship lists of one described object. -/
structure SchemaData where
  fields : List FieldDef
  childRels : List ChildRelDef
deriving DecidableEq, Repr

/-- The relData cache of the webview: schema data keyed by expansion
path.  The source keys it by the dot-joined relationship path string;
we key it by the segment chain, which determines that string (the two
keyings agree whenever relationship names contain no dot). -/
abbrev RelData := List (List String × SchemaData)

/-- Lookup of relData[path]. -/
def relLookup (rd : RelData) (p : List String) : Option SchemaData :=
  match rd with
  | [] => none
  | (p', sd) :: rest => if p' == p then some sd else relLookup rest p

/-- Store of relData[path] = sd (overwriting any previous entry). -/
def relInsert (rd : RelData) (p : List String) (sd : SchemaData) : RelData :=
  match rd with
  | [] => [(p, sd)]
  | (p', sd') :: rest =>
      if p' == p then (p', sd) :: rest else (p', sd') :: relInsert rest p sd

/-- One expansion affordance produced by the tree rendering: the
relationship path it would expand, and whether it is live (the source
attaches the onclick handler and omits the disabled style under
exactly the same depth < 5 condition, so one flag models both). -/
structure Expander where
  path : List String
  enabled : Bool
deriving DecidableEq, Repr

/-- renderFieldList (SoqlBuilderPanel.ts lines 507-554), restricted to
the expansion affordances it creates (the search filter is empty, so
the field filter passes every field — the claims do not involve the
search box).  Every field computes relationshipPath = path + '.' +
f.relationshipName (JavaScript turns an undefined relationship name
into the literal segment "undefined"); a reference field with a
relationship name gets an expander, enabled iff depth < 5; whenever
relData holds the relationship path, the sub-list is rendered at
depth + 1.  The recursion terminates because each step consults a
strictly longer path in the finite cache; the fuel argument makes that
explicit and any fuel exceeding the cache size is enough. -/
def renderFieldList (rd : RelData) : List FieldDef → List String → Nat → Nat → List Expander
  | _, _, _, 0 => []
  | fields, path, depth, fuel + 1 =>
      fields.flatMap (fun f =>
        let rp := path ++ [f.relationshipName.getD "undefined"]
        (if f.ftype == "reference" && f.relationshipName.isSome then
          [{ path := rp, enabled := decide (depth < 5) }]
         else []) ++
        (match relLookup rd rp with
         | some sd => renderFieldList rd sd.fields rp (depth + 1) fuel
         | none => []))

/-- renderChildRelList (SoqlBuilderPanel.ts lines 556-584), restricted
to the expansion affordances it creates (empty search, as above).
Every child relationship gets an expander that is always enabled — no
depth check and no disabled style — and whenever relData holds the
relationship path its field sub-list is rendered by renderFieldList
with depth restarted at 0. -/
def renderChildRelList (rd : RelData) (rels : List ChildRelDef) (path : List String)
    (fuel : Nat) : List Expander :=
  rels.flatMap (fun r =>
    let rp := path ++ [r.relationshipName]
    { path := rp, enabled := true } ::
    (match relLookup rd rp with
     | some sd => renderFieldList rd sd.fields rp 0 fuel
     | none => []))

/-- renderFields (SoqlBuilderPanel.ts lines 489-505): the root field
list at depth 0 and the root child-relationship list. -/
def renderFields (rd : RelData) (baseFields : List FieldDef)
    (baseChildRels : List ChildRelDef) (fuel : Nat) : List Expander :=
  renderFieldList rd baseFields [] 0 fuel ++ renderChildRelList rd baseChildRels [] fuel

/-- Clicking an expander runs toggleRelationship (SoqlBuilderPanel.ts
lines 586-594), which issues a describeObject fetch exactly when the
expander is live and its path is not yet cached in relData. -/
def issuesFetch (rd : RelData) (e : Expander) : Bool :=
  e.enabled && (relLookup rd e.path).isNone

/-- The tree-side state of the webview script: the selected root
object, the root field and child-relationship lists, the expansion
cache and the selection set. -/
structure WebviewState where
  currentObject : String
  baseFields : List FieldDef
  baseChildRels : List ChildRelDef
  relData : RelData
  selectedFields : List String
deriving DecidableEq, Repr

/-- A describeObject request posted to the extension host; the
response will carry back only the field lists and the parentPath — not
the requested object name. -/
structure DescribeRequest where
  sobject : String
  parentPath : Option (List String)
deriving DecidableEq, Repr

/-- selectObject (SoqlBuilderPanel.ts lines 472-480): set the current
root object and post a root describeObject request (no parentPath).
The prior tree state is kept on screen until a setFields message
arrives. -/
def selectObject (st : WebviewState) (obj : String) : WebviewState × DescribeRequest :=
  ({ st with currentObject := obj }, { sobject := obj, parentPath := none })

/-- The setFields message handler (SoqlBuilderPanel.ts lines 429-445).
Without a parentPath the response is treated as the root schema
unconditionally — nothing in the message or the handler compares it
against the currently selected root object — replacing the base field
and relationship lists, clearing the expansion cache, and re-seeding
the selection with Id and Name when present.  With a parentPath the
response is stored in the expansion cache under that path. -/
def handleSetFields (st : WebviewState) (fields : List FieldDef)
    (childRels : List ChildRelDef) (parentPath : Option (List String)) : WebviewState :=
  match parentPath with
  | none =>
      { st with
        baseFields := fields,
        baseChildRels := childRels,
        relData := [],
        selectedFields :=
          (if (fields.find? (fun f => f.name == "Id")).isSome then ["Id"] else []) ++
          (if (fields.find? (fun f => f.name == "Name")).isSome then ["Name"] else []) }
  | some p => { st with relData := relInsert st.relData p { fields := fields, childRels := childRels } }

/-- The outcome of running the sf sobject describe CLI command: a
parsed result with fields, a result without usable fields (bad status
or missing field array), or a thrown CLI error. -/
inductive DescribeOutcome where
  | success (fields : List FieldDef) (childRels : List ChildRelDef)
  | noFields
  | cliError (msg : String)

/-- Insertion of an element into a sorted list, for the stable sort of
describeSObject (localeCompare embedded as the code-point order on
names, which the claims never depend on). -/
def insertSorted (le : α → α → Bool) (x : α) : List α → List α
  | [] => [x]
  | y :: ys => if le x y then x :: y :: ys else y :: insertSorted le x ys

/-- A stable insertion sort. -/
def sortBy (le : α → α → Bool) (l : List α) : List α :=
  l.foldr (insertSorted le) []

/-- SfCli.describeSObject (SoqlBuilderPanel.ts lines 1461-1509): on
success the fields are sorted by name and the child relationships are
filtered to those with a non-empty relationship name and sorted; when
the result carries no usable field array, and also when the CLI call
throws, the error is only logged and an empty schema — empty field
list, empty relationship list — is returned instead of a failure. -/
def describeSObject : DescribeOutcome → SchemaData
  | .success fields childRels =>
      { fields := sortBy (fun a b => decide (a.name ≤ b.name)) fields,
        childRels := sortBy (fun a b => decide (a.relationshipName ≤ b.relationshipName))
          (childRels.filter (fun r => r.relationshipName != "")) }
  | .noFields => { fields := [], childRels := [] }
  | .cliError _ => { fields := [], childRels := [] }

/-- C2: computeColumns on the two records with Id scalars and nested
Owner objects yields exactly the columns Id and Owner.Name: the nested
non-subquery Owner object contributes one flattened column per sub-key
and the raw Owner column is absent from the result. -/
theorem extractColumns_owner_example :
    extractColumns
      [[("Id", JVal.jstr "1"), ("Owner", JVal.jobj [("Name", JVal.jstr "A")])],
       [("Id", JVal.jstr "2"), ("Owner", JVal.jobj [("Name", JVal.jstr "B")])]]
      = ["Id", "Owner.Name"] := by
  decide

/-- One exported data row as the specification describes it: the quoted
cells of the record, in column order, joined by the delimiter. -/
def formatRowSpec (cols : List String) (sep : String) (r : RecordObj) : String :=
  joinWith sep (cols.map (fun c => exportCell (getValueByPath r c)))

/-- The export layout the specification describes: header row of
column names, then one row per record, rows joined by newline (each
line newline-terminated), subquery summary columns excluded. -/
def formatSpec (records : List RecordObj) (sep : String) : String :=
  let cols := exportColumns records
  joinWith "\n" (joinWith sep cols :: records.map (formatRowSpec cols sep)) ++ "\n"

/-- Concatenation of newline-terminated lines. -/
def linesCat : List String → String
  | [] => ""
  | x :: xs => x ++ "\n" ++ linesCat xs

theorem joinWith_newline_eq_linesCat (x : String) (xs : List String) :
    joinWith "\n" (x :: xs) ++ "\n" = x ++ "\n" ++ linesCat xs := by
  induction xs generalizing x with
  | nil => simp [joinWith, linesCat]
  | cons y ys ih =>
      show (x ++ "\n" ++ joinWith "\n" (y :: ys)) ++ "\n" = _
      rw [String.append_assoc, String.append_assoc, ih y]
      simp [linesCat, String.append_assoc]

theorem foldl_lines_eq_linesCat (line : RecordObj → String) :
    ∀ (l : List RecordObj) (acc : String),
      l.foldl (fun c r => c ++ line r ++ "\n") acc = acc ++ linesCat (l.map line) := by
  intro l
  induction l with
  | nil => intro acc; simp [linesCat]
  | cons r rs ih =>
      intro acc
      simp only [List.foldl_cons, List.map_cons, linesCat]
      rw [ih]
      simp [String.append_assoc]

/-- C8: the export formatter lays rows out as the specification says —
header row of column names joined by the delimiter, one row per record
of double-quoted cells with embedded quotes doubled, rows joined by
newline (each line newline-terminated), subquery summary columns
excluded — and in particular the cell value He said "hi" exports as
the cell "He said ""hi""" (shown on a record whose Contacts subquery
column is excluded from the export). -/
theorem exportData_spec_shape_and_quote_example :
    (∀ (records : List RecordObj) (sep : String), exportData records sep = formatSpec records sep) ∧
    exportData
        [[("Id", JVal.jstr "001"), ("Msg", JVal.jstr "He said \"hi\""),
          ("Contacts", JVal.jobj [("totalSize", JVal.jnum 1),
            ("records", JVal.jarr [JVal.jobj [("LastName", JVal.jstr "X")]])])]] ","
      = "Id,Msg\n\"001\",\"He said \"\"hi\"\"\"\n" := by
  constructor
  · intro records sep
    unfold exportData formatSpec
    rw [foldl_lines_eq_linesCat, joinWith_newline_eq_linesCat]
    rfl
  · decide

/-- C9: every falsy cell value — the number 0, false, the empty
string, null, and an absent path — exports as the same empty quoted
cell, so the exported text cannot distinguish them, while the
on-screen table renders 0 and false as the texts "0" and "false". -/
theorem export_falsy_cells_indistinguishable :
    (let r : RecordObj := [("Zero", JVal.jnum 0), ("Flag", JVal.jbool false),
                           ("Empty", JVal.jstr ""), ("Nil", JVal.jnull)]
     exportCell (getValueByPath r "Zero") = "\"\"" ∧
     exportCell (getValueByPath r "Flag") = "\"\"" ∧
     exportCell (getValueByPath r "Empty") = "\"\"" ∧
     exportCell (getValueByPath r "Nil") = "\"\"" ∧
     exportCell (getValueByPath r "Owner.Name") = "\"\"" ∧
     renderCellText (getValueByPath r "Zero") = "0" ∧
     renderCellText (getValueByPath r "Flag") = "false" ∧
     renderCellText (getValueByPath r "Nil") = "" ∧
     renderCellText (getValueByPath r "Owner.Name") = "") := by
  decide

/-- C10: toggling a fully qualified field path twice returns the
SelectionSet to exactly the set it was — the first toggle removes a
selected path or adds an unselected one, the second undoes it — stated
as membership equality, the identity of a SelectionSet (the JavaScript
Set may re-insert the path at the end of its iteration order). -/
theorem toggleField_twice_mem (s : List String) (p x : String) :
    x ∈ toggleField (toggleField s p) p ↔ x ∈ s := by
  by_cases hp : p ∈ s
  · have h1 : toggleField s p = s.filter (fun x => x != p) := by
      simp [toggleField, List.elem_iff, hp]
    have h2 : p ∉ s.filter (fun x => x != p) := by
      simp [List.mem_filter]
    rw [h1]
    have h3 : toggleField (s.filter (fun x => x != p)) p
        = s.filter (fun x => x != p) ++ [p] := by
      simp [toggleField, List.elem_iff, h2]
    rw [h3]
    simp only [List.mem_append, List.mem_filter, List.mem_singleton, bne_iff_ne, ne_eq]
    constructor
    · rintro (⟨hx, _⟩ | rfl)
      · exact hx
      · exact hp
    · intro hx
      by_cases hxp : x = p
      · exact Or.inr hxp
      · exact Or.inl ⟨hx, hxp⟩
  · have h1 : toggleField s p = s ++ [p] := by
      simp [toggleField, List.elem_iff, hp]
    have h2 : p ∈ s ++ [p] := by simp
    have h3 : toggleField (s ++ [p]) p = (s ++ [p]).filter (fun x => x != p) := by
      simp [toggleField, List.elem_iff]
    rw [h1, h3]
    simp only [List.filter_append, List.mem_append, List.mem_filter, bne_iff_ne, ne_eq]
    constructor
    · rintro (⟨hx, _⟩ | hx)
      · exact hx
      · simp at hx
    · intro hx
      exact Or.inl ⟨hx, fun h => hp (h ▸ hx)⟩

/-- C1 counterexample: with root object Account, known child
relationship Contacts, and the SelectionSet Id, Name, Contacts.LastName
selected in that order, updateQuery does not produce the exact text
the claim states (which has no space between the comma and the
opening parenthesis of the sub-select). -/
theorem updateQuery_contacts_counterexample :
    updateQuery "Account" ["Contacts"] ["Id", "Name", "Contacts.LastName"]
      ≠ "SELECT Id, Name,(SELECT LastName FROM Contacts) FROM Account LIMIT 2000" := by
  decide

/-- C1 amended: the synthesized text is as the claim states except
that each sub-select clause is appended with a comma and a space
before the opening parenthesis. -/
theorem updateQuery_contacts_amended :
    updateQuery "Account" ["Contacts"] ["Id", "Name", "Contacts.LastName"]
      = "SELECT Id, Name, (SELECT LastName FROM Contacts) FROM Account LIMIT 2000" := by
  decide

/-- C5: a stale root describe response is applied unconditionally.
After selecting Account and then switching the root object to Contact,
the late-arriving setFields response carrying Account's field list (a
root response has no parentPath, and the message carries no object
name the handler could compare) overwrites the displayed base field
list while Contact is the selected root object. -/
theorem stale_setFields_mutates_tree :
    (let st0 : WebviewState :=
       { currentObject := "", baseFields := [], baseChildRels := [],
         relData := [], selectedFields := [] }
     let st1 := (selectObject st0 "Account").1
     let st2 := (selectObject st1 "Contact").1
     let accountFields : List FieldDef :=
       [{ name := "AccountNumber", label := "Account Number", ftype := "string",
          relationshipName := none, referenceTo := [] }]
     let st3 := handleSetFields st2 accountFields [] none
     st3.currentObject = "Contact" ∧
     st3.baseFields = accountFields ∧
     st3.baseFields ≠ st2.baseFields) := by
  decide

theorem relLookup_relInsert (rd : RelData) (p : List String) (sd : SchemaData) :
    relLookup (relInsert rd p sd) p = some sd := by
  induction rd with
  | nil => simp [relInsert, relLookup]
  | cons hd tl ih =>
      obtain ⟨p', sd'⟩ := hd
      by_cases h : p' == p
      · simp [relInsert, relLookup, h]
      · simp only [relInsert, h, Bool.false_eq_true, if_false, relLookup]
        exact ih

/-- C7 counterexample: a failed remote describe call does not fail the
expansion — describeSObject swallows the CLI error and returns an
empty schema, and the setFields handler stores that empty schema in
the expansion cache under the expanded path, so the node shows as
expanded (its cached entry present) instead of reverting to collapsed
with an error. -/
theorem describe_failure_applied_counterexample :
    (let sd := describeSObject (.cliError "spawn sf ENOENT")
     let st0 : WebviewState :=
       { currentObject := "Account", baseFields := [], baseChildRels := [],
         relData := [], selectedFields := [] }
     let st1 := handleSetFields st0 sd.fields sd.childRels (some ["Owner"])
     sd = { fields := [], childRels := [] } ∧
     relLookup st1.relData ["Owner"] = some { fields := [], childRels := [] }) := by
  decide

/-- C7 amended: when the remote describe call throws, and also when it
returns no usable field list, describeSObject returns the empty schema
(the error is only logged, no SchemaFetchError reaches the tree), and
applying the resulting setFields response stores that empty schema in
the expansion cache under the expanded path — the node stays expanded
with an empty field list rather than reverting to collapsed. -/
theorem describeSObject_failure_amended (msg : String) (st : WebviewState) (p : List String) :
    describeSObject (.cliError msg) = { fields := [], childRels := [] } ∧
    describeSObject .noFields = { fields := [], childRels := [] } ∧
    relLookup (handleSetFields st (describeSObject (.cliError msg)).fields
        (describeSObject (.cliError msg)).childRels (some p)).relData p
      = some { fields := [], childRels := [] } := by
  refine ⟨rfl, rfl, ?_⟩
  show relLookup (relInsert st.relData p _) p = _
  exact relLookup_relInsert _ _ _

set_option maxRecDepth 10000 in
/-- C6 counterexample: with 120 records, page size 50 and current page
1, requesting page 4 is not clamped to the valid last page 3 — the
request is rejected and the current page stays 1, so the displayed
slice is records[0:50], not the last-page slice records[100:120] a
clamp would give. -/
theorem jumpToPage_no_clamp_counterexample :
    (let st : PageState :=
       { allResults := List.replicate 120 [], currentPage := 1, pageSize := 50 }
     (jumpToPage st 4).currentPage = 1 ∧
     paginate (List.range 120) (jumpToPage st 4).currentPage 50 = List.range 50 ∧
     List.range 50 ≠ (List.range 120).drop 100) := by
  refine ⟨rfl, by decide, by decide⟩

/-- C6 amended: paginate returns the contiguous slice
records[(page-1)*pageSize : min(page*pageSize, count)] — with 120
records and pageSize 50, page 3 is records[100:120], 20 records — and
an in-range page never yields an empty slice; but an out-of-range page
request (such as page 4 here) is ignored by jumpToPage, leaving the
current page unchanged, rather than being clamped to the last page. -/
theorem paginate_amended {α : Type} (records : List α) (st : PageState) (v : Nat)
    (hlen : records.length = 120)
    (hv : ¬ (1 ≤ v ∧ v ≤ totalPages st)) :
    paginate records 3 50 = (records.drop 100).take 20 ∧
    (paginate records 3 50).length = 20 ∧
    jumpToPage st v = st ∧
    (∀ (recs : List α) (page ps : Nat), 1 ≤ page → 0 < ps →
        page ≤ (recs.length + ps - 1) / ps → paginate recs page ps ≠ []) := by
  refine ⟨?_, ?_, ?_, ?_⟩
  · simp [paginate, hlen]
  · simp [paginate, hlen]
  · simp [jumpToPage, hv]
  · intro recs page ps hpage hps hle
    obtain ⟨q, rfl⟩ : ∃ q, page = q + 1 := ⟨page - 1, by omega⟩
    have hmul : (q + 1) * ps ≤ recs.length + ps - 1 :=
      (Nat.le_div_iff_mul_le hps).mp hle
    have hlt : q * ps < recs.length := by
      have : q * ps + ps = (q + 1) * ps := by ring
      omega
    have hlen2 : (paginate recs (q + 1) ps).length > 0 := by
      simp only [paginate, Nat.add_sub_cancel, List.length_take, List.length_drop]
      omega
    intro hnil
    rw [hnil] at hlen2
    simp at hlen2

set_option maxRecDepth 10000 in
/-- C4 counterexample: expansion paths are not bounded by 5 segments
and deep expansion stays live.  With the child relationship Contacts
expanded and a chain of reference fields R1..R4 cached beneath it, the
tree offers an enabled expander for the 6-segment path
Contacts.R1.R2.R3.R4.R5 — renderChildRelList restarts the depth count
at 0 — and clicking it issues a schema fetch (the path is uncached). -/
theorem depth_limit_counterexample :
    (let rf : String → FieldDef := fun n =>
       { name := n, label := n, ftype := "reference",
         relationshipName := some n, referenceTo := ["A"] }
     let rd : RelData :=
       [(["Contacts"], { fields := [rf "R1"], childRels := [] }),
        (["Contacts", "R1"], { fields := [rf "R2"], childRels := [] }),
        (["Contacts", "R1", "R2"], { fields := [rf "R3"], childRels := [] }),
        (["Contacts", "R1", "R2", "R3"], { fields := [rf "R4"], childRels := [] }),
        (["Contacts", "R1", "R2", "R3", "R4"], { fields := [rf "R5"], childRels := [] })]
     let e : Expander := { path := ["Contacts", "R1", "R2", "R3", "R4", "R5"], enabled := true }
     e ∈ renderFields rd [] [{ relationshipName := "Contacts", childSObject := "Contact" }] 6 ∧
     e.path.length = 6 ∧
     issuesFetch rd e = true) := by
  decide

theorem renderFieldList_enabled_length (rd : RelData) :
    ∀ (fuel : Nat) (fields : List FieldDef) (path : List String) (depth c : Nat),
      path.length ≤ depth + c →
      ∀ e ∈ renderFieldList rd fields path depth fuel,
        e.enabled = true → e.path.length ≤ 5 + c := by
  intro fuel
  induction fuel with
  | zero =>
      intro fields path depth c _ e he
      simp [renderFieldList] at he
  | succ fuel ih =>
      intro fields path depth c hpc e he hen
      simp only [renderFieldList, List.mem_flatMap] at he
      obtain ⟨f, _, hbody⟩ := he
      rw [List.mem_append] at hbody
      rcases hbody with hexp | hrec
      · by_cases hc : (f.ftype == "reference" && f.relationshipName.isSome) = true
        · rw [if_pos hc] at hexp
          simp only [List.mem_singleton] at hexp
          subst hexp
          simp only at hen
          have hd : depth < 5 := of_decide_eq_true hen
          simp only [List.length_append, List.length_singleton]
          omega
        · rw [if_neg hc] at hexp
          simp at hexp
      · cases hrd : relLookup rd (path ++ [f.relationshipName.getD "undefined"]) with
        | none => rw [hrd] at hrec; simp at hrec
        | some sd =>
            rw [hrd] at hrec
            refine ih sd.fields _ (depth + 1) c ?_ e hrec hen
            simp only [List.length_append, List.length_singleton]
            omega

theorem renderChildRelList_enabled_length (rd : RelData) (rels : List ChildRelDef)
    (path : List String) (fuel : Nat) (c : Nat) (hpc : path.length + 1 ≤ c) :
    ∀ e ∈ renderChildRelList rd rels path fuel,
      e.enabled = true → e.path.length ≤ 5 + c := by
  intro e he hen
  simp only [renderChildRelList, List.mem_flatMap] at he
  obtain ⟨r, _, hbody⟩ := he
  rw [List.mem_cons] at hbody
  rcases hbody with rfl | hrec
  · simp only [List.length_append, List.length_singleton]
    omega
  · cases hrd : relLookup rd (path ++ [r.relationshipName]) with
    | none => rw [hrd] at hrec; simp at hrec
    | some sd =>
        rw [hrd] at hrec
        refine renderFieldList_enabled_length rd fuel sd.fields _ 0 c ?_ e hrec hen
        simp only [List.length_append, List.length_singleton]
        omega

/-- C4 amended: the depth-5 rule holds only per field list.  An
expansion affordance produced by the root field list (a pure
reference-field chain) is enabled only for paths of at most 5
segments; but renderChildRelList restarts the depth count at 0, and
child relationships appear only at the root, so over the whole tree an
enabled affordance can have up to 6 segments — and any affordance for
a path deeper than 6 segments is disabled and so never issues a
schema fetch. -/
theorem renderFields_depth_amended (rd : RelData) (baseFields : List FieldDef)
    (baseChildRels : List ChildRelDef) (fuel : Nat) :
    (∀ e ∈ renderFieldList rd baseFields [] 0 fuel,
        e.enabled = true → e.path.length ≤ 5) ∧
    (∀ e ∈ renderFields rd baseFields baseChildRels fuel,
        e.enabled = true → e.path.length ≤ 6) ∧
    (∀ e ∈ renderFields rd baseFields baseChildRels fuel,
        6 < e.path.length → issuesFetch rd e = false) := by
  have h1 : ∀ e ∈ renderFieldList rd baseFields [] 0 fuel,
      e.enabled = true → e.path.length ≤ 5 :=
    renderFieldList_enabled_length rd fuel baseFields [] 0 0 (by simp)
  have h2 : ∀ e ∈ renderFields rd baseFields baseChildRels fuel,
      e.enabled = true → e.path.length ≤ 6 := by
    intro e he hen
    rw [renderFields, List.mem_append] at he
    rcases he with he | he
    · exact le_trans (h1 e he hen) (by omega)
    · exact renderChildRelList_enabled_length rd baseChildRels [] fuel 1 (by simp) e he hen
  refine ⟨h1, h2, ?_⟩
  intro e he hlen
  cases hen : e.enabled with
  | false => simp [issuesFetch, hen]
  | true =>
      have := h2 e he hen
      omega

/-- Witness for renderFields_depth_amended: the root Contacts child
relationship yields an enabled one-segment affordance, within the
6-segment bound. -/
theorem renderFields_depth_amended_witness :
    (({ path := ["Contacts"], enabled := true } : Expander)
        ∈ renderFields [] [] [{ relationshipName := "Contacts", childSObject := "Contact" }] 1 ∧
     (({ path := ["Contacts"], enabled := true } : Expander).enabled = true)) ∧
    ({ path := ["Contacts"], enabled := true } : Expander).path.length ≤ 6 :=
  ⟨⟨by decide, rfl⟩,
   (renderFields_depth_amended [] [] [{ relationshipName := "Contacts", childSObject := "Contact" }] 1).2.1
     { path := ["Contacts"], enabled := true } (by decide) rfl⟩

set_option maxRecDepth 10000 in
/-- Witness for paginate_amended at 120 records, page size 50, with
the out-of-range request 4. -/
theorem paginate_amended_witness :
    ((List.range 120).length = 120 ∧
     ¬ (1 ≤ 4 ∧ 4 ≤ totalPages { allResults := List.replicate 120 [], currentPage := 1, pageSize := 50 })) ∧
    (paginate (List.range 120) 3 50 = ((List.range 120).drop 100).take 20 ∧
     (paginate (List.range 120) 3 50).length = 20 ∧
     jumpToPage { allResults := List.replicate 120 [], currentPage := 1, pageSize := 50 } 4
       = { allResults := List.replicate 120 [], currentPage := 1, pageSize := 50 } ∧
     (∀ (recs : List Nat) (page ps : Nat), 1 ≤ page → 0 < ps →
        page ≤ (recs.length + ps - 1) / ps → paginate recs page ps ≠ [])) :=
  ⟨⟨by decide, by decide⟩,
   paginate_amended (List.range 120)
     { allResults := List.replicate 120 [], currentPage := 1, pageSize := 50 } 4
     (by decide) (by decide)⟩

theorem mem_osInsert {xs : List String} {x y : String} :
    x ∈ osInsert xs y ↔ x ∈ xs ∨ x = y := by
  unfold osInsert
  split
  · rename_i h
    constructor
    · exact Or.inl
    · rintro (hx | rfl)
      · exact hx
      · exact List.elem_iff.mp h
  · simp

theorem subset_osInsert (xs : List String) (y : String) : xs ⊆ osInsert xs y := by
  intro x hx
  exact mem_osInsert.mpr (Or.inl hx)

theorem subset_flattenCols (k : String) :
    ∀ (fs : List (String × JVal)) (cs : List String), cs ⊆ flattenCols k fs cs := by
  intro fs
  induction fs with
  | nil => intro cs; simp [flattenCols]
  | cons p fs ih =>
      intro cs
      show cs ⊆ flattenCols k (p :: fs) cs
      unfold flattenCols
      rw [List.foldl_cons]
      refine Set.Subset.trans ?_ (ih _)
      split
      · exact fun _ h => h
      · exact subset_osInsert cs _

theorem processPair_mono (st : ColState) (k : String) (v : JVal) :
    st.columns ⊆ (processPair st k v).columns ∧
    st.subqueryKeys ⊆ (processPair st k v).subqueryKeys := by
  by_cases hk : (k == "attributes") = true
  · simp only [processPair, hk, if_true]
    exact ⟨fun _ h => h, fun _ h => h⟩
  · cases v with
    | jarr xs =>
        simp only [processPair, hk, if_false, Bool.false_eq_true]
        exact ⟨subset_osInsert _ _, subset_osInsert _ _⟩
    | jobj fs =>
        by_cases hrec : truthyOpt (objLookup fs "records") = true
        · simp only [processPair, hk, hrec, if_false, if_true, Bool.false_eq_true]
          exact ⟨subset_osInsert _ _, subset_osInsert _ _⟩
        · simp only [processPair, hk, hrec, if_false, Bool.false_eq_true]
          exact ⟨subset_flattenCols k fs st.columns, fun _ h => h⟩
    | jnull =>
        simp only [processPair, hk, if_false, Bool.false_eq_true]
        exact ⟨subset_osInsert _ _, fun _ h => h⟩
    | jstr s =>
        simp only [processPair, hk, if_false, Bool.false_eq_true]
        exact ⟨subset_osInsert _ _, fun _ h => h⟩
    | jnum n =>
        simp only [processPair, hk, if_false, Bool.false_eq_true]
        exact ⟨subset_osInsert _ _, fun _ h => h⟩
    | jbool b =>
        simp only [processPair, hk, if_false, Bool.false_eq_true]
        exact ⟨subset_osInsert _ _, fun _ h => h⟩

theorem processPair_subquery (st : ColState) (k : String) (v : JVal)
    (hk : (k == "attributes") = false) (hv : isSubqueryObj v = true) :
    processPair st k v =
      { columns := osInsert st.columns (k ++ " (Subquery)"),
        subqueryKeys := osInsert st.subqueryKeys k } := by
  cases v with
  | jobj fs =>
      simp only [isSubqueryObj] at hv
      simp [processPair, hk, hv]
  | jarr xs => simp [isSubqueryObj] at hv
  | jnull => simp [isSubqueryObj] at hv
  | jstr s => simp [isSubqueryObj] at hv
  | jnum n => simp [isSubqueryObj] at hv
  | jbool b => simp [isSubqueryObj] at hv

theorem foldRecord_mono (r : RecordObj) (st : ColState) :
    st.columns ⊆ (r.foldl (fun st kv => processPair st kv.1 kv.2) st).columns ∧
    st.subqueryKeys ⊆ (r.foldl (fun st kv => processPair st kv.1 kv.2) st).subqueryKeys := by
  induction r generalizing st with
  | nil => exact ⟨fun _ h => h, fun _ h => h⟩
  | cons kv rest ih =>
      rw [List.foldl_cons]
      have h1 := processPair_mono st kv.1 kv.2
      have h2 := ih (processPair st kv.1 kv.2)
      exact ⟨Set.Subset.trans h1.1 h2.1, Set.Subset.trans h1.2 h2.2⟩

theorem foldRecords_mono (records : List RecordObj) (st : ColState) :
    st.columns ⊆ (records.foldl
        (fun st r => r.foldl (fun st kv => processPair st kv.1 kv.2) st) st).columns ∧
    st.subqueryKeys ⊆ (records.foldl
        (fun st r => r.foldl (fun st kv => processPair st kv.1 kv.2) st) st).subqueryKeys := by
  induction records generalizing st with
  | nil => exact ⟨fun _ h => h, fun _ h => h⟩
  | cons r rest ih =>
      rw [List.foldl_cons]
      have h1 := foldRecord_mono r st
      have h2 := ih (r.foldl (fun st kv => processPair st kv.1 kv.2) st)
      exact ⟨Set.Subset.trans h1.1 h2.1, Set.Subset.trans h1.2 h2.2⟩

theorem foldRecord_adds_subquery (k : String) (v : JVal)
    (hk : (k == "attributes") = false) (hv : isSubqueryObj v = true) :
    ∀ (r : RecordObj) (st : ColState), (k, v) ∈ r →
      (k ++ " (Subquery)") ∈ (r.foldl (fun st kv => processPair st kv.1 kv.2) st).columns ∧
      k ∈ (r.foldl (fun st kv => processPair st kv.1 kv.2) st).subqueryKeys := by
  intro r
  induction r with
  | nil => intro st h; simp at h
  | cons kv rest ih =>
      intro st hmem
      rw [List.mem_cons] at hmem
      rw [List.foldl_cons]
      rcases hmem with rfl | hmem
      · have hstep : processPair st k v =
            { columns := osInsert st.columns (k ++ " (Subquery)"),
              subqueryKeys := osInsert st.subqueryKeys k } :=
          processPair_subquery st k v hk hv
        have hmono := foldRecord_mono rest (processPair st k v)
        constructor
        · exact hmono.1 (by rw [hstep]; exact mem_osInsert.mpr (Or.inr rfl))
        · exact hmono.2 (by rw [hstep]; exact mem_osInsert.mpr (Or.inr rfl))
      · exact ih (processPair st kv.1 kv.2) hmem

theorem extractState_adds_subquery (k : String) (v : JVal)
    (hk : (k == "attributes") = false) (hv : isSubqueryObj v = true) :
    ∀ (records : List RecordObj) (st : ColState) (r : RecordObj),
      r ∈ records → (k, v) ∈ r →
      (k ++ " (Subquery)") ∈ (records.foldl
          (fun st r => r.foldl (fun st kv => processPair st kv.1 kv.2) st) st).columns ∧
      k ∈ (records.foldl
          (fun st r => r.foldl (fun st kv => processPair st kv.1 kv.2) st) st).subqueryKeys := by
  intro records
  induction records with
  | nil => intro st r h; simp at h
  | cons r0 rest ih =>
      intro st r hr hkv
      rw [List.mem_cons] at hr
      rw [List.foldl_cons]
      rcases hr with rfl | hr
      · have hin := foldRecord_adds_subquery k v hk hv r st hkv
        have hmono := foldRecords_mono rest (r.foldl (fun st kv => processPair st kv.1 kv.2) st)
        exact ⟨hmono.1 hin.1, hmono.2 hin.2⟩
      · exact ih (r0.foldl (fun st kv => processPair st kv.1 kv.2) st) r hr hkv

theorem subqueryKeys_processPair (st : ColState) (k : String) (v : JVal) (x : String)
    (hx : x ∈ (processPair st k v).subqueryKeys) :
    x ∈ st.subqueryKeys ∨ x = k := by
  by_cases hk : (k == "attributes") = true
  · simp only [processPair, hk, if_true] at hx
    exact Or.inl hx
  · cases v with
    | jarr xs =>
        simp only [processPair, hk, if_false, Bool.false_eq_true] at hx
        exact mem_osInsert.mp hx
    | jobj fs =>
        by_cases hrec : truthyOpt (objLookup fs "records") = true
        · simp only [processPair, hk, hrec, if_true, if_false, Bool.false_eq_true] at hx
          exact mem_osInsert.mp hx
        · simp only [processPair, hk, hrec, if_false, Bool.false_eq_true] at hx
          exact Or.inl hx
    | jnull =>
        simp only [processPair, hk, if_false, Bool.false_eq_true] at hx
        exact Or.inl hx
    | jstr s =>
        simp only [processPair, hk, if_false, Bool.false_eq_true] at hx
        exact Or.inl hx
    | jnum n =>
        simp only [processPair, hk, if_false, Bool.false_eq_true] at hx
        exact Or.inl hx
    | jbool b =>
        simp only [processPair, hk, if_false, Bool.false_eq_true] at hx
        exact Or.inl hx

theorem mem_flattenCols (k : String) :
    ∀ (fs : List (String × JVal)) (cs : List String) (x : String),
      x ∈ flattenCols k fs cs → x ∈ cs ∨ ∃ s, x = k ++ "." ++ s := by
  intro fs
  induction fs with
  | nil => intro cs x hx; exact Or.inl hx
  | cons p fs ih =>
      intro cs x hx
      unfold flattenCols at hx
      rw [List.foldl_cons] at hx
      rcases ih _ x hx with hx1 | hx1
      · split at hx1
        · exact Or.inl hx1
        · rcases mem_osInsert.mp hx1 with hx2 | hx2
          · exact Or.inl hx2
          · exact Or.inr ⟨p.1, hx2⟩
      · exact Or.inr hx1

theorem columns_processPair (st : ColState) (k : String) (v : JVal) (x : String)
    (hx : x ∈ (processPair st k v).columns) :
    x ∈ st.columns ∨ x = k ∨ x = k ++ " (Subquery)" ∨ ∃ s, x = k ++ "." ++ s := by
  by_cases hk : (k == "attributes") = true
  · simp only [processPair, hk, if_true] at hx
    exact Or.inl hx
  · cases v with
    | jarr xs =>
        simp only [processPair, hk, if_false, Bool.false_eq_true] at hx
        rcases mem_osInsert.mp hx with h | h
        · exact Or.inl h
        · exact Or.inr (Or.inr (Or.inl h))
    | jobj fs =>
        by_cases hrec : truthyOpt (objLookup fs "records") = true
        · simp only [processPair, hk, hrec, if_true, if_false, Bool.false_eq_true] at hx
          rcases mem_osInsert.mp hx with h | h
          · exact Or.inl h
          · exact Or.inr (Or.inr (Or.inl h))
        · simp only [processPair, hk, hrec, if_false, Bool.false_eq_true] at hx
          rcases mem_flattenCols k fs st.columns x hx with h | h
          · exact Or.inl h
          · exact Or.inr (Or.inr (Or.inr h))
    | jnull =>
        simp only [processPair, hk, if_false, Bool.false_eq_true] at hx
        rcases mem_osInsert.mp hx with h | h
        · exact Or.inl h
        · exact Or.inr (Or.inl h)
    | jstr s =>
        simp only [processPair, hk, if_false, Bool.false_eq_true] at hx
        rcases mem_osInsert.mp hx with h | h
        · exact Or.inl h
        · exact Or.inr (Or.inl h)
    | jnum n =>
        simp only [processPair, hk, if_false, Bool.false_eq_true] at hx
        rcases mem_osInsert.mp hx with h | h
        · exact Or.inl h
        · exact Or.inr (Or.inl h)
    | jbool b =>
        simp only [processPair, hk, if_false, Bool.false_eq_true] at hx
        rcases mem_osInsert.mp hx with h | h
        · exact Or.inl h
        · exact Or.inr (Or.inl h)

theorem subqueryKeys_record (r : RecordObj) :
    ∀ (st : ColState) (x : String),
      x ∈ (r.foldl (fun st kv => processPair st kv.1 kv.2) st).subqueryKeys →
      x ∈ st.subqueryKeys ∨ ∃ p ∈ r, p.1 = x := by
  induction r with
  | nil => intro st x hx; exact Or.inl hx
  | cons kv rest ih =>
      intro st x hx
      rw [List.foldl_cons] at hx
      rcases ih _ x hx with hx1 | hx1
      · rcases subqueryKeys_processPair st kv.1 kv.2 x hx1 with h | h
        · exact Or.inl h
        · exact Or.inr ⟨kv, List.mem_cons_self kv rest, h.symm⟩
      · obtain ⟨p, hp, hpx⟩ := hx1
        exact Or.inr ⟨p, List.mem_cons_of_mem kv hp, hpx⟩

theorem subqueryKeys_records (records : List RecordObj) :
    ∀ (st : ColState) (x : String),
      x ∈ (records.foldl
          (fun st r => r.foldl (fun st kv => processPair st kv.1 kv.2) st) st).subqueryKeys →
      x ∈ st.subqueryKeys ∨ ∃ r ∈ records, ∃ p ∈ r, p.1 = x := by
  induction records with
  | nil => intro st x hx; exact Or.inl hx
  | cons r rest ih =>
      intro st x hx
      rw [List.foldl_cons] at hx
      rcases ih _ x hx with hx1 | hx1
      · rcases subqueryKeys_record r st x hx1 with h | h
        · exact Or.inl h
        · exact Or.inr ⟨r, List.mem_cons_self r rest, h⟩
      · obtain ⟨r2, hr2, hp⟩ := hx1
        exact Or.inr ⟨r2, List.mem_cons_of_mem r hr2, hp⟩

theorem columns_record (r : RecordObj) :
    ∀ (st : ColState) (x : String),
      x ∈ (r.foldl (fun st kv => processPair st kv.1 kv.2) st).columns →
      x ∈ st.columns ∨ ∃ p ∈ r,
        x = p.1 ∨ x = p.1 ++ " (Subquery)" ∨ ∃ s, x = p.1 ++ "." ++ s := by
  induction r with
  | nil => intro st x hx; exact Or.inl hx
  | cons kv rest ih =>
      intro st x hx
      rw [List.foldl_cons] at hx
      rcases ih _ x hx with hx1 | hx1
      · rcases columns_processPair st kv.1 kv.2 x hx1 with h | h
        · exact Or.inl h
        · exact Or.inr ⟨kv, List.mem_cons_self kv rest, h⟩
      · obtain ⟨p, hp, hpx⟩ := hx1
        exact Or.inr ⟨p, List.mem_cons_of_mem kv hp, hpx⟩

theorem columns_records (records : List RecordObj) :
    ∀ (st : ColState) (x : String),
      x ∈ (records.foldl
          (fun st r => r.foldl (fun st kv => processPair st kv.1 kv.2) st) st).columns →
      x ∈ st.columns ∨ ∃ r ∈ records, ∃ p ∈ r,
        x = p.1 ∨ x = p.1 ++ " (Subquery)" ∨ ∃ s, x = p.1 ++ "." ++ s := by
  induction records with
  | nil => intro st x hx; exact Or.inl hx
  | cons r rest ih =>
      intro st x hx
      rw [List.foldl_cons] at hx
      rcases ih _ x hx with hx1 | hx1
      · rcases columns_record r st x hx1 with h | h
        · exact Or.inl h
        · exact Or.inr ⟨r, List.mem_cons_self r rest, h⟩
      · obtain ⟨r2, hr2, hp⟩ := hx1
        exact Or.inr ⟨r2, List.mem_cons_of_mem r hr2, hp⟩

theorem prefix_split {α : Type} (b : List α) :
    ∀ (p a : List α), p <+: a ++ b → p <+: a ∨ a <+: p := by
  intro p a
  induction a generalizing p with
  | nil => intro _; exact Or.inr (List.nil_prefix)
  | cons x a ih =>
      intro h
      cases p with
      | nil => exact Or.inl List.nil_prefix
      | cons y p =>
          rw [List.cons_append, List.cons_prefix_cons] at h
          obtain ⟨rfl, h⟩ := h
          rcases ih p h with h1 | h1
          · exact Or.inl (List.cons_prefix_cons.mpr ⟨rfl, h1⟩)
          · exact Or.inr (List.cons_prefix_cons.mpr ⟨rfl, h1⟩)

theorem append_cons_eq_concat {α : Type} (x : α) :
    ∀ (b a t : List α), x ∉ b → a ++ x :: t = b ++ [x] → a = b ∧ t = [] := by
  intro b
  induction b with
  | nil =>
      intro a t _ heq
      cases a with
      | nil =>
          simp only [List.nil_append] at heq
          rw [List.cons_eq_cons] at heq
          exact ⟨rfl, heq.2⟩
      | cons y a =>
          rw [List.cons_append, List.nil_append, List.cons_eq_cons] at heq
          exact absurd heq.2 (by simp)
  | cons z b ih =>
      intro a t hx heq
      rw [List.mem_cons, not_or] at hx
      cases a with
      | nil =>
          rw [List.nil_append, List.cons_append, List.cons_eq_cons] at heq
          exact absurd heq.1 hx.1
      | cons y a =>
          rw [List.cons_append, List.cons_append, List.cons_eq_cons] at heq
          obtain ⟨rfl, heq⟩ := heq
          obtain ⟨rfl, rfl⟩ := ih a t hx.2 heq
          exact ⟨rfl, rfl⟩

theorem concat_split_mem {α : Type} (x : α) :
    ∀ (a t b : List α), a ++ t = b ++ [x] → t ≠ [] → x ∈ t := by
  intro a
  induction a with
  | nil =>
      intro t b heq _
      rw [List.nil_append] at heq
      rw [heq]
      simp
  | cons y a ih =>
      intro t b heq ht
      cases b with
      | nil =>
          rw [List.nil_append, List.cons_append, List.cons_eq_cons] at heq
          have : a ++ t = [] := heq.2
          rw [List.append_eq_nil] at this
          exact absurd this.2 ht
      | cons z b =>
          rw [List.cons_append, List.cons_append, List.cons_eq_cons] at heq
          exact ih t b heq.2 ht

theorem no_cs_dot_prefix (k : String)
    (hk : jsStartsWith k "Contacts (Subquery)" = false) :
    jsStartsWith k ("Contacts (Subquery)" ++ ".") = false ∧
    jsStartsWith (k ++ " (Subquery)") ("Contacts (Subquery)" ++ ".") = false ∧
    (∀ s : String, jsStartsWith (k ++ "." ++ s) ("Contacts (Subquery)" ++ ".") = false) := by
  have hC : ("Contacts (Subquery)" ++ ".").data = "Contacts (Subquery)".data ++ ['.'] := by
    rw [String.data_append]
  have hkp : ¬ ("Contacts (Subquery)".data <+: k.data) := by
    intro h
    rw [jsStartsWith, Bool.eq_false_iff] at hk
    exact hk (List.isPrefixOf_iff_prefix.mpr h)
  have goal1 : ¬ (("Contacts (Subquery)".data ++ ['.']) <+: k.data) := by
    intro h
    exact hkp (List.IsPrefix.trans (List.prefix_append _ _) h)
  refine ⟨?_, ?_, ?_⟩
  · rw [jsStartsWith, Bool.eq_false_iff]
    intro h
    exact goal1 (hC ▸ List.isPrefixOf_iff_prefix.mp h)
  · rw [jsStartsWith, Bool.eq_false_iff]
    intro h
    have h2 : ("Contacts (Subquery)".data ++ ['.']) <+: k.data ++ " (Subquery)".data := by
      have := List.isPrefixOf_iff_prefix.mp h
      rwa [hC, String.data_append] at this
    rcases prefix_split _ _ _ h2 with h3 | h3
    · exact goal1 h3
    · obtain ⟨t, ht⟩ := h3
      have htpre : t <+: " (Subquery)".data := by
        have h4 : k.data ++ t <+: k.data ++ " (Subquery)".data := ht ▸ h2
        exact (List.prefix_append_right_inj k.data).mp h4
      cases t with
      | nil =>
          rw [List.append_nil] at ht
          exact hkp (ht ▸ List.prefix_append _ _)
      | cons c0 t' =>
          have hmem : '.' ∈ c0 :: t' :=
            concat_split_mem '.' k.data (c0 :: t') "Contacts (Subquery)".data ht (by simp)
          have : '.' ∈ " (Subquery)".data := htpre.subset hmem
          simp at this
  · intro s
    rw [jsStartsWith, Bool.eq_false_iff]
    intro h
    have h2 : ("Contacts (Subquery)".data ++ ['.']) <+: k.data ++ '.' :: s.data := by
      have := List.isPrefixOf_iff_prefix.mp h
      rw [hC] at this
      rwa [String.data_append, String.data_append,
            show (("." : String).data) = ['.'] from rfl, List.append_assoc,
            List.singleton_append] at this
    rcases prefix_split _ _ _ h2 with h3 | h3
    · exact goal1 h3
    · obtain ⟨t, ht⟩ := h3
      have htpre : t <+: '.' :: s.data := by
        have h4 : k.data ++ t <+: k.data ++ '.' :: s.data := ht ▸ h2
        exact (List.prefix_append_right_inj k.data).mp h4
      cases t with
      | nil =>
          rw [List.append_nil] at ht
          exact hkp (ht ▸ List.prefix_append _ _)
      | cons c0 t' =>
          rw [List.cons_prefix_cons] at htpre
          obtain ⟨rfl, _⟩ := htpre
          have hdot : ('.' : Char) ∉ "Contacts (Subquery)".data := by decide
          obtain ⟨hkeq, _⟩ :=
            append_cons_eq_concat '.' "Contacts (Subquery)".data k.data t' hdot ht
          exact hkp (hkeq ▸ List.prefix_refl _)

set_option maxRecDepth 10000 in
/-- C3 counterexample: the synthetic subquery column is not guaranteed
to appear.  In a record that maps Contacts to a sub-result but also
carries the literal key "Contacts (Subquery)" with an array value,
that key is itself recorded as a subquery key, so the final filter
drops the synthetic Contacts column: the computed column list does not
contain "Contacts (Subquery)". -/
theorem extractColumns_subquery_counterexample :
    (let records : List RecordObj :=
       [[("Contacts", JVal.jobj [("totalSize", JVal.jnum 2),
            ("records", JVal.jarr [JVal.jobj [("LastName", JVal.jstr "A")]])]),
         ("Contacts (Subquery)", JVal.jarr [])]]
     (∃ r ∈ records, ∃ p ∈ r, p.1 = "Contacts" ∧ isSubqueryObj p.2 = true) ∧
     "Contacts (Subquery)" ∉ extractColumns records) := by
  decide

/-- C3 amended: for every record list in which some record maps the
key Contacts to a sub-result object (truthy records property), and in
which no record key starts with the literal string
"Contacts (Subquery)", the computed column list contains the synthetic
column "Contacts (Subquery)" and never the raw column "Contacts" —
even when other records in the same list carry Contacts as a scalar. -/
theorem extractColumns_subquery_amended (records : List RecordObj)
    (hsub : ∃ r ∈ records, ∃ p ∈ r, p.1 = "Contacts" ∧ isSubqueryObj p.2 = true)
    (hkeys : ∀ r ∈ records, ∀ p ∈ r, jsStartsWith p.1 "Contacts (Subquery)" = false) :
    "Contacts (Subquery)" ∈ extractColumns records ∧
    "Contacts" ∉ extractColumns records := by
  obtain ⟨r, hr, p, hp, hname, hv⟩ := hsub
  obtain ⟨k, v⟩ := p
  simp only at hname
  subst hname
  have hpres := extractState_adds_subquery "Contacts" v rfl hv records
    { columns := [], subqueryKeys := [] } r hr hp
  have hC1 : "Contacts (Subquery)" ∈ (extractState records).columns := hpres.1
  have hC2 : "Contacts" ∈ (extractState records).subqueryKeys := hpres.2
  have hnotsub : (extractState records).subqueryKeys.contains "Contacts (Subquery)" = false := by
    rw [Bool.eq_false_iff]
    intro hcon
    have hmem := List.elem_iff.mp hcon
    rcases subqueryKeys_records records { columns := [], subqueryKeys := [] }
        "Contacts (Subquery)" hmem with h | h
    · simp at h
    · obtain ⟨r2, hr2, p2, hp2, hp2x⟩ := h
      have := hkeys r2 hr2 p2 hp2
      rw [hp2x] at this
      rw [jsStartsWith, Bool.eq_false_iff] at this
      exact this (List.isPrefixOf_iff_prefix.mpr (List.prefix_refl _))
  have hany : ((extractState records).columns.any (fun other =>
      jsStartsWith other ("Contacts (Subquery)" ++ ".") && other != "Contacts (Subquery)"))
        = false := by
    rw [List.any_eq_false]
    intro other hother
    rcases columns_records records { columns := [], subqueryKeys := [] } other hother with h | h
    · simp at h
    · obtain ⟨r2, hr2, p2, hp2, hshape⟩ := h
      have hkfalse := hkeys r2 hr2 p2 hp2
      obtain ⟨g1, g2, g3⟩ := no_cs_dot_prefix p2.1 hkfalse
      have hlit : ("Contacts (Subquery)" ++ "." : String) = "Contacts (Subquery)." := rfl
      rw [hlit] at g1 g2 g3
      rcases hshape with rfl | rfl | ⟨s, rfl⟩
      · simp [g1]
      · simp [g2]
      · simp [g3 s]
  constructor
  · rw [extractColumns, List.mem_filter]
    refine ⟨hC1, ?_⟩
    rw [Bool.and_eq_true, Bool.not_eq_true', Bool.not_eq_true']
    exact ⟨hnotsub, hany⟩
  · rw [extractColumns, List.mem_filter]
    rintro ⟨_, hpred⟩
    rw [Bool.and_eq_true, Bool.not_eq_true', Bool.not_eq_true'] at hpred
    have := hpred.1
    rw [Bool.eq_false_iff] at this
    exact this (List.elem_iff.mpr hC2)

set_option maxRecDepth 10000 in
/-- Witness for extractColumns_subquery_amended on a record whose
Contacts key holds a sub-result and whose keys are ordinary field
names. -/
theorem extractColumns_subquery_amended_witness :
    ((∃ r ∈ ([[("Id", JVal.jstr "1"),
        ("Contacts", JVal.jobj [("totalSize", JVal.jnum 2),
          ("records", JVal.jarr [JVal.jobj [("LastName", JVal.jstr "A")]])])]]
          : List RecordObj),
        ∃ p ∈ r, p.1 = "Contacts" ∧ isSubqueryObj p.2 = true) ∧
     (∀ r ∈ ([[("Id", JVal.jstr "1"),
        ("Contacts", JVal.jobj [("totalSize", JVal.jnum 2),
          ("records", JVal.jarr [JVal.jobj [("LastName", JVal.jstr "A")]])])]]
          : List RecordObj),
        ∀ p ∈ r, jsStartsWith p.1 "Contacts (Subquery)" = false)) ∧
    ("Contacts (Subquery)" ∈ extractColumns
        [[("Id", JVal.jstr "1"),
          ("Contacts", JVal.jobj [("totalSize", JVal.jnum 2),
            ("records", JVal.jarr [JVal.jobj [("LastName", JVal.jstr "A")]])])]] ∧
     "Contacts" ∉ extractColumns
        [[("Id", JVal.jstr "1"),
          ("Contacts", JVal.jobj [("totalSize", JVal.jnum 2),
            ("records", JVal.jarr [JVal.jobj [("LastName", JVal.jstr "A")]])])]]) :=
  ⟨⟨by decide, by decide⟩,
   extractColumns_subquery_amended _ (by decide) (by decide)⟩
